import Mathlib

/-!
Verification of ptt/cleanup_topologies.py
(PlateTectonicTools: remove_features_not_referenced_by_topologies).

Shallow embedding: features are records of a feature id plus an ordered
list of top-level (time-dependent) property values; property values form
a closed variant type mirroring the pygplates property-value classes the
visitor in the source dispatches on.  Geological times appear only as
stored data (the in-scope code never compares or computes with them), so
they are modelled as an inductive carrier with the two infinities and
integer ages.
-/

namespace CleanupTopologies

/-- Feature identifiers are opaque stable tokens; modelled as naturals. -/
abbrev FeatureId := Nat

/-- A geological time: distant past (+infinity), distant future (-infinity),
or a finite age.  The source stores float times but never computes with
them in the in-scope code, so an exact carrier suffices. -/
inductive GeoTime where
  | distantPast
  | distantFuture
  | age (t : Int)
deriving DecidableEq, Repr

/-- A (begin_time, end_time) pair. -/
abbrev TimePeriod := GeoTime × GeoTime

/-- ALL_TIME = float(inf), float(-inf) in _TopologicalReferenceVisitor. -/
def ALL_TIME : TimePeriod := (GeoTime.distantPast, GeoTime.distantFuture)

/-- The pygplates property-value classes the visitor compares against:
GpmlTopologicalLine, GpmlTopologicalPolygon, GpmlTopologicalNetwork, and
a catch-all for every other value type. -/
inductive GpmlType where
  | topologicalLine
  | topologicalPolygon
  | topologicalNetwork
  | otherType
deriving DecidableEq, Repr

/-- Whether a GpmlPiecewiseAggregation value type is one of the three
topological types tested at lines 171-173 of the source. -/
def GpmlType.isTopological : GpmlType → Bool
  | .topologicalLine => true
  | .topologicalPolygon => true
  | .topologicalNetwork => true
  | .otherType => false

mutual
/-- A top-level (time-dependent) property value, as dispatched on by
_TopologicalReferenceVisitor.  Sections / exterior sections / boundary
sections / interiors are modelled by the feature ids their property
delegates resolve to, which is all the source reads from them. -/
inductive PropertyValue where
  | gpmlConstantValue (value : PropertyValue)
  | gpmlPiecewiseAggregation (valueType : GpmlType) (timeWindows : TimeWindows)
  | gpmlTopologicalLine (sections : List FeatureId)
  | gpmlTopologicalPolygon (exteriorSections : List FeatureId)
  | gpmlTopologicalNetwork (boundarySections : List FeatureId) (interiors : List FeatureId)
  | otherValue
deriving DecidableEq, Repr

/-- The ordered time windows of a GpmlPiecewiseAggregation; each carries
its declared (begin_time, end_time) and a nested property value. -/
inductive TimeWindows where
  | nil
  | cons (timePeriod : TimePeriod) (value : PropertyValue) (rest : TimeWindows)
deriving DecidableEq, Repr
end

/-- len(gpml_piecewise_aggregation). -/
def TimeWindows.length : TimeWindows → Nat
  | .nil => 0
  | .cons _ _ rest => 1 + rest.length

/-- The time windows as an ordered list of (time period, value) pairs. -/
def TimeWindows.toList : TimeWindows → List (TimePeriod × PropertyValue)
  | .nil => []
  | .cons timePeriod value rest => (timePeriod, value) :: rest.toList

/-- The topology kind of a property value that is itself one of the three
topological leaves (none for every other value). -/
def topo_kind : PropertyValue → Option GpmlType
  | .gpmlTopologicalLine _ => some GpmlType.topologicalLine
  | .gpmlTopologicalPolygon _ => some GpmlType.topologicalPolygon
  | .gpmlTopologicalNetwork _ _ => some GpmlType.topologicalNetwork
  | _ => none

/-- The referenced ids a topological leaf value contributes: sections for
a line, exterior sections for a polygon, boundary sections plus interiors
for a network. -/
def topo_ids : PropertyValue → Finset FeatureId
  | .gpmlTopologicalLine sections => sections.toFinset
  | .gpmlTopologicalPolygon exteriorSections => exteriorSections.toFinset
  | .gpmlTopologicalNetwork boundarySections interiors =>
      boundarySections.toFinset ∪ interiors.toFinset
  | _ => ∅

/-- A feature: its id and its properties in declaration order (each
property modelled by the value property.get_time_dependent_value()
returns). -/
structure Feature where
  feature_id : FeatureId
  properties : List PropertyValue
deriving DecidableEq, Repr

/-- The mutable state of _TopologicalReferenceVisitor while one feature
is visited: topology_type, references and current_time_period. -/
structure VisitorState where
  topology_type : Option GpmlType
  references : List (TimePeriod × Finset FeatureId)
  current_time_period : TimePeriod
deriving DecidableEq

mutual
/-- property_value.accept_visitor(self): one dispatch of the visitor.
The match arms are, in order, visit_gpml_constant_value,
visit_gpml_piecewise_aggregation, visit_gpml_topological_line,
visit_gpml_topological_polygon, visit_gpml_topological_network, and the
base-class no-op for every other property value. -/
def accept_visitor (state : VisitorState) : PropertyValue → VisitorState
  | .gpmlConstantValue value =>
      -- visit the GpmlConstantValue's nested property value
      accept_visitor state value
  | .gpmlPiecewiseAggregation valueType (.cons _ value .nil) =>
      -- only need to visit if contains a topological line, polygon or network;
      -- a sole time window: ignore its declared time period
      if valueType.isTopological then accept_visitor state value else state
  | .gpmlPiecewiseAggregation valueType timeWindows =>
      -- only need to visit if contains a topological line, polygon or network;
      -- visit the property value in each time window
      if valueType.isTopological then visit_time_windows state timeWindows
      else state
  | .gpmlTopologicalLine sections =>
      { state with
          topology_type := some GpmlType.topologicalLine,
          references :=
            state.references ++ [(state.current_time_period, sections.toFinset)] }
  | .gpmlTopologicalPolygon exteriorSections =>
      { state with
          topology_type := some GpmlType.topologicalPolygon,
          references :=
            state.references ++ [(state.current_time_period, exteriorSections.toFinset)] }
  | .gpmlTopologicalNetwork boundarySections interiors =>
      { state with
          topology_type := some GpmlType.topologicalNetwork,
          references :=
            state.references ++
              [(state.current_time_period,
                boundarySections.toFinset ∪ interiors.toFinset)] }
  | .otherValue => state
termination_by structural v => v

/-- The loop over time windows at lines 202-206 of the source: restrict
current_time_period while visiting each window's value, then restore it
to ALL_TIME. -/
def visit_time_windows (state : VisitorState) : TimeWindows → VisitorState
  | .nil => state
  | .cons timePeriod value rest =>
      let state1 :=
        accept_visitor { state with current_time_period := timePeriod } value
      visit_time_windows { state1 with current_time_period := ALL_TIME } rest
termination_by structural ws => ws
end

/-- Result object _TopologicalReference(feature, references). -/
structure TopologicalReference where
  feature : Feature
  references : List (TimePeriod × Finset FeatureId)
deriving DecidableEq

/-- _TopologicalReference.get_references. -/
def TopologicalReference.get_references (r : TopologicalReference) :
    List (TimePeriod × Finset FeatureId) :=
  r.references

/-- _TopologicalReference.get_referenced_feature_ids: the union of the
referenced-id sets over all time periods. -/
def TopologicalReference.get_referenced_feature_ids (r : TopologicalReference) :
    Finset FeatureId :=
  r.references.foldl (fun acc e => acc ∪ e.2) ∅

/-- The property loop inside visit_feature: visit each property in
declaration order and stop as soon as topology_type is set. -/
def visit_properties (state : VisitorState) : List PropertyValue → VisitorState
  | [] => state
  | p :: ps =>
      let state1 := accept_visitor state p
      if state1.topology_type.isSome then state1
      else visit_properties state1 ps

/-- The visitor state visit_feature resets to before scanning a feature:
topology_type = None, references = [], current_time_period = ALL_TIME. -/
def reset_state : VisitorState := ⟨none, [], ALL_TIME⟩

/-- _TopologicalReferenceVisitor.visit_feature: reset the visitor state,
scan the properties, and return the topology type together with a
_TopologicalReference. -/
def visit_feature (feature : Feature) :
    Option GpmlType × TopologicalReference :=
  let state := visit_properties reset_state feature.properties
  (state.topology_type, ⟨feature, state.references⟩)

/-- The topology type the extractor assigns to a feature. -/
def topology_type_of (feature : Feature) : Option GpmlType :=
  (visit_feature feature).1

/-- The state accumulated by the first pass of
remove_features_not_referenced_by_topologies (lines 73-102). -/
structure GatherState where
  set_feature_ids_of_topological_polygons_and_networks : Finset FeatureId
  topological_polygon_and_network_references : List TopologicalReference
  /-- topological_line_references: a Python dict keyed by feature id.
  Insertion overwrites, so it is modelled as an association list with
  the most recent binding first; lookup takes the first match. -/
  topological_line_references : List (FeatureId × TopologicalReference)
deriving DecidableEq

/-- One iteration of the feature loop at lines 88-102. -/
def gather_feature (st : GatherState) (feature : Feature) : GatherState :=
  let (topologyType, topologicalReference) := visit_feature feature
  if topologyType = some GpmlType.topologicalLine then
    { st with
        topological_line_references :=
          (feature.feature_id, topologicalReference) ::
            st.topological_line_references }
  else if topologyType = some GpmlType.topologicalPolygon ∨
      topologyType = some GpmlType.topologicalNetwork then
    { st with
        topological_polygon_and_network_references :=
          st.topological_polygon_and_network_references ++ [topologicalReference],
        set_feature_ids_of_topological_polygons_and_networks :=
          insert feature.feature_id
            st.set_feature_ids_of_topological_polygons_and_networks }
  else st

/-- The two nested loops of the first pass over all feature collections. -/
def gather (feature_collections : List (List Feature)) : GatherState :=
  feature_collections.foldl (fun st fc => fc.foldl gather_feature st) ⟨∅, [], []⟩

/-- The dict lookup topological_line_references.get(referenced_feature_id)
followed by get_referenced_feature_ids, with the empty set when the id is
not a known topological line (the source then skips the update). -/
def line_referenced_ids
    (lineReferences : List (FeatureId × TopologicalReference))
    (referencedFeatureId : FeatureId) : Finset FeatureId :=
  match lineReferences.lookup referencedFeatureId with
  | some r => r.get_referenced_feature_ids
  | none => ∅

/-- set_feature_ids_referenced_by_topological_polygons_and_networks,
accumulated by the double loop at lines 105-108. -/
def set_referenced_by_polygons_and_networks
    (polygonAndNetworkReferences : List TopologicalReference) : Finset FeatureId :=
  polygonAndNetworkReferences.foldl
    (fun acc r => r.get_references.foldl (fun acc e => acc ∪ e.2) acc) ∅

/-- set_feature_ids_referenced_by_topological_lines_referenced_by_topological_polygons_and_networks,
accumulated by the loops at lines 105-115: for every id referenced in some
time period of some polygon/network, union in the referenced ids of the
topological line registered under that id (if any). -/
def set_referenced_by_lines_referenced_by_polygons_and_networks
    (lineReferences : List (FeatureId × TopologicalReference))
    (polygonAndNetworkReferences : List TopologicalReference) : Finset FeatureId :=
  polygonAndNetworkReferences.foldl
    (fun acc r =>
      r.get_references.foldl
        (fun acc e => acc ∪ e.2.biUnion (line_referenced_ids lineReferences)) acc) ∅

/-- feature_ids_to_keep (lines 121-123). -/
def feature_ids_to_keep (feature_collections : List (List Feature)) : Finset FeatureId :=
  let st := gather feature_collections
  st.set_feature_ids_of_topological_polygons_and_networks ∪
    set_referenced_by_polygons_and_networks
      st.topological_polygon_and_network_references ∪
    set_referenced_by_lines_referenced_by_polygons_and_networks
      st.topological_line_references
      st.topological_polygon_and_network_references

/-- The in-place deletion loop at lines 124-133: each feature is examined
once in order and deleted when its id is not in the keep set (deleting
leaves the index in place; keeping advances it). -/
def remove_not_kept (keep : Finset FeatureId) : List Feature → List Feature
  | [] => []
  | f :: fs =>
      if f.feature_id ∈ keep then f :: remove_not_kept keep fs
      else remove_not_kept keep fs

/-- remove_features_not_referenced_by_topologies.  The second parameter
mirrors the restrict_referenced_feature_time_periods keyword argument of
the source, which the body never reads. -/
def remove_features_not_referenced_by_topologies
    (feature_collections : List (List Feature))
    (restrict_referenced_feature_time_periods : Bool := false) :
    List (List Feature) :=
  let keep := feature_ids_to_keep feature_collections
  feature_collections.map (remove_not_kept keep)

mutual
/-- Two property values are identical except possibly for the declared
time periods of time windows living inside topological aggregations
(valueType and window count unchanged, inner values related). -/
def same_pv (a b : PropertyValue) : Bool :=
  match a, b with
  | .gpmlConstantValue va, .gpmlConstantValue vb => same_pv va vb
  | .gpmlPiecewiseAggregation vta wsa, .gpmlPiecewiseAggregation vtb wsb =>
      decide (vta = vtb) && same_time_windows vta.isTopological wsa wsb
  | .gpmlTopologicalLine sa, .gpmlTopologicalLine sb => decide (sa = sb)
  | .gpmlTopologicalPolygon sa, .gpmlTopologicalPolygon sb => decide (sa = sb)
  | .gpmlTopologicalNetwork ba ia, .gpmlTopologicalNetwork bb ib =>
      decide (ba = bb) && decide (ia = ib)
  | .otherValue, .otherValue => true
  | _, _ => false
termination_by structural a

/-- Pointwise comparison of time-window lists; when periodsFree is set
(topological aggregation) the declared periods may differ. -/
def same_time_windows (periodsFree : Bool) (wsa wsb : TimeWindows) : Bool :=
  match wsa, wsb with
  | .nil, .nil => true
  | .cons tpa va ra, .cons tpb vb rb =>
      (periodsFree || decide (tpa = tpb)) && same_pv va vb &&
        same_time_windows periodsFree ra rb
  | _, _ => false
termination_by structural wsa
end

/-- Pointwise comparison of property lists. -/
def same_properties : List PropertyValue → List PropertyValue → Bool
  | [], [] => true
  | p :: ps, q :: qs => same_pv p q && same_properties ps qs
  | _, _ => false

/-- Two features identical except for declared topological window
periods. -/
def same_feature (f g : Feature) : Bool :=
  decide (f.feature_id = g.feature_id) &&
    same_properties f.properties g.properties

/-- Pointwise comparison of feature lists. -/
def same_features : List Feature → List Feature → Bool
  | [], [] => true
  | f :: fs, g :: gs => same_feature f g && same_features fs gs
  | _, _ => false

/-- Pointwise comparison of lists of feature collections. -/
def same_collections : List (List Feature) → List (List Feature) → Bool
  | [], [] => true
  | fc :: fcs, gc :: gcs => same_features fc gc && same_collections fcs gcs
  | _, _ => false

/-- First input of the C10 counterexample: a polygon whose topological
aggregation has one window declared (age 10, age 0). -/
def example_period_input1 : List (List Feature) :=
  [[⟨1, [.gpmlPiecewiseAggregation .topologicalPolygon
      (.cons (GeoTime.age 10, GeoTime.age 0)
        (.gpmlTopologicalPolygon [2]) .nil)]⟩]]

/-- Second input of the C10 counterexample: identical except the window
is declared (age 20, age 0). -/
def example_period_input2 : List (List Feature) :=
  [[⟨1, [.gpmlPiecewiseAggregation .topologicalPolygon
      (.cons (GeoTime.age 20, GeoTime.age 0)
        (.gpmlTopologicalPolygon [2]) .nil)]⟩]]

/-- The part of the visitor state the keep-set computation can see: the
topology type and the id sets of the references (their periods blanked
out). -/
abbrev state_rel (s1 s2 : VisitorState) : Prop :=
  s1.topology_type = s2.topology_type ∧
  s1.references.map Prod.snd = s2.references.map Prod.snd

/-! ### Derived views used in the proofs -/

/-- The feature is classified as a topological polygon or network. -/
def is_polygon_or_network (f : Feature) : Prop :=
  topology_type_of f = some GpmlType.topologicalPolygon ∨
    topology_type_of f = some GpmlType.topologicalNetwork

instance (f : Feature) : Decidable (is_polygon_or_network f) := by
  unfold is_polygon_or_network; infer_instance

/-- The feature is classified as a topological line. -/
def is_line (f : Feature) : Prop :=
  topology_type_of f = some GpmlType.topologicalLine

instance (f : Feature) : Decidable (is_line f) := by
  unfold is_line; infer_instance

/-- All ids the extractor finds a feature referencing, over all its time
windows. -/
def referenced_ids (f : Feature) : Finset FeatureId :=
  (visit_feature f).2.get_referenced_feature_ids

/-- Ids of the topological polygons and networks of a feature list. -/
def pn_ids_of : List Feature → Finset FeatureId
  | [] => ∅
  | f :: l =>
      if is_polygon_or_network f then insert f.feature_id (pn_ids_of l)
      else pn_ids_of l

/-- References of the topological polygons and networks of a feature
list, in traversal order. -/
def pn_refs_of : List Feature → List TopologicalReference
  | [] => []
  | f :: l =>
      if is_polygon_or_network f then (visit_feature f).2 :: pn_refs_of l
      else pn_refs_of l

/-- Dict entries of the topological lines of a feature list, in traversal
order (oldest first). -/
def line_entries_of : List Feature → List (FeatureId × TopologicalReference)
  | [] => []
  | f :: l =>
      if is_line f then (f.feature_id, (visit_feature f).2) :: line_entries_of l
      else line_entries_of l

/-! ### Spec-level descriptions of the three keep-set components -/

/-- The id belongs to some topological polygon or network feature. -/
def id_of_polygon_or_network (fcs : List (List Feature)) (x : FeatureId) : Prop :=
  ∃ f ∈ fcs.flatten, is_polygon_or_network f ∧ f.feature_id = x

/-- The id is directly referenced by some topological polygon or network,
in any of its time windows. -/
def directly_referenced (fcs : List (List Feature)) (x : FeatureId) : Prop :=
  ∃ f ∈ fcs.flatten, is_polygon_or_network f ∧ x ∈ referenced_ids f

/-- The id is referenced by some topological line whose own id is
directly referenced by a polygon or network. -/
def referenced_via_line (fcs : List (List Feature)) (x : FeatureId) : Prop :=
  ∃ g ∈ fcs.flatten, is_line g ∧ directly_referenced fcs g.feature_id ∧
    x ∈ referenced_ids g

instance (fcs : List (List Feature)) (x : FeatureId) :
    Decidable (id_of_polygon_or_network fcs x) := by
  unfold id_of_polygon_or_network; infer_instance

instance (fcs : List (List Feature)) (x : FeatureId) :
    Decidable (directly_referenced fcs x) := by
  unfold directly_referenced; infer_instance

instance (fcs : List (List Feature)) (x : FeatureId) :
    Decidable (referenced_via_line fcs x) := by
  unfold referenced_via_line; infer_instance

/-! ### Concrete example features used by witnesses and counterexamples -/

/-- A topological polygon (id 1) referencing feature ids 2 and 4. -/
def example_polygon : Feature := ⟨1, [.gpmlTopologicalPolygon [2, 4]]⟩

/-- A topological line (id 2) referencing feature ids 3 and 6. -/
def example_line1 : Feature := ⟨2, [.gpmlTopologicalLine [3, 6]]⟩

/-- A topological line (id 3) referencing feature id 4; it is referenced
only by example_line1, never by a polygon or network. -/
def example_line2 : Feature := ⟨3, [.gpmlTopologicalLine [4]]⟩

/-- A regular feature (id 4) referenced directly by the polygon. -/
def example_regular : Feature := ⟨4, [.otherValue]⟩

/-- A regular feature (id 6) referenced only by example_line1. -/
def example_via : Feature := ⟨6, [.otherValue]⟩

/-- An unreferenced regular feature (id 5). -/
def example_unreferenced : Feature := ⟨5, [.otherValue]⟩

/-- One input collection holding the example features. -/
def example_input : List (List Feature) :=
  [[example_polygon, example_line1, example_line2, example_regular,
    example_via, example_unreferenced]]

theorem line_not_polygon_or_network {f : Feature} (h : is_line f) :
    ¬ is_polygon_or_network f := by
  unfold is_line at h
  rintro (h' | h') <;> rw [h] at h' <;> simp at h'

/-- One step of the gather loop, expressed through the classifiers. -/
theorem gather_feature_eq (st : GatherState) (f : Feature) :
    gather_feature st f =
      if is_line f then
        { st with
            topological_line_references :=
              (f.feature_id, (visit_feature f).2) :: st.topological_line_references }
      else if is_polygon_or_network f then
        { st with
            topological_polygon_and_network_references :=
              st.topological_polygon_and_network_references ++ [(visit_feature f).2],
            set_feature_ids_of_topological_polygons_and_networks :=
              insert f.feature_id
                st.set_feature_ids_of_topological_polygons_and_networks }
      else st := by
  unfold gather_feature is_line is_polygon_or_network topology_type_of
  rfl

/-- Compositional characterisation of the gather fold over one feature
list. -/
theorem foldl_gather_feature (l : List Feature) (st : GatherState) :
    l.foldl gather_feature st =
      ⟨ st.set_feature_ids_of_topological_polygons_and_networks ∪ pn_ids_of l,
        st.topological_polygon_and_network_references ++ pn_refs_of l,
        (line_entries_of l).reverse ++ st.topological_line_references ⟩ := by
  induction l generalizing st with
  | nil => simp [pn_ids_of, pn_refs_of, line_entries_of]
  | cons f l ih =>
      rw [List.foldl_cons, gather_feature_eq]
      by_cases hline : is_line f
      · rw [if_pos hline, ih]
        simp [pn_ids_of, pn_refs_of, line_entries_of, hline,
          line_not_polygon_or_network hline]
      · rw [if_neg hline]
        by_cases hpn : is_polygon_or_network f
        · rw [if_pos hpn, ih]
          simp only [pn_ids_of, pn_refs_of, line_entries_of, if_pos hpn,
            if_neg hline]
          congr 1 <;> simp [Finset.insert_union, Finset.union_insert]
        · rw [if_neg hpn, ih]
          simp [pn_ids_of, pn_refs_of, line_entries_of, hline, hpn]

/-- The gather pass over all collections equals the gather fold over the
flattened feature list. -/
theorem gather_eq (fcs : List (List Feature)) :
    gather fcs =
      ⟨ pn_ids_of fcs.flatten,
        pn_refs_of fcs.flatten,
        (line_entries_of fcs.flatten).reverse ⟩ := by
  unfold gather
  rw [← List.foldl_flatten, foldl_gather_feature]
  simp

/-- Generic membership in a union-accumulating fold. -/
theorem mem_foldl_union {α β : Type} [DecidableEq β] (g : α → Finset β) :
    ∀ (l : List α) (init : Finset β) (x : β),
      x ∈ l.foldl (fun acc e => acc ∪ g e) init ↔ x ∈ init ∨ ∃ e ∈ l, x ∈ g e := by
  intro l
  induction l with
  | nil => simp
  | cons a l ih =>
      intro init x
      rw [List.foldl_cons, ih]
      simp [Finset.mem_union]
      tauto

/-- mem_foldl_union, specialised to the shape of the reference-set folds. -/
theorem mem_foldl_union_snd (l : List (TimePeriod × Finset FeatureId))
    (init : Finset FeatureId) (x : FeatureId) :
    x ∈ l.foldl (fun acc e => acc ∪ e.2) init ↔ x ∈ init ∨ ∃ e ∈ l, x ∈ e.2 :=
  mem_foldl_union (fun e => e.2) l init x

/-- mem_foldl_union, specialised to the fold that consults the line dict. -/
theorem mem_foldl_union_biUnion
    (lineRefs : List (FeatureId × TopologicalReference))
    (l : List (TimePeriod × Finset FeatureId))
    (init : Finset FeatureId) (x : FeatureId) :
    x ∈ l.foldl (fun acc e => acc ∪ e.2.biUnion (line_referenced_ids lineRefs)) init ↔
      x ∈ init ∨ ∃ e ∈ l, ∃ i ∈ e.2, x ∈ line_referenced_ids lineRefs i := by
  have h := mem_foldl_union (fun e : TimePeriod × Finset FeatureId =>
    e.2.biUnion (line_referenced_ids lineRefs)) l init x
  simpa [Finset.mem_biUnion] using h

theorem mem_get_referenced_feature_ids (r : TopologicalReference) (x : FeatureId) :
    x ∈ r.get_referenced_feature_ids ↔ ∃ e ∈ r.references, x ∈ e.2 := by
  unfold TopologicalReference.get_referenced_feature_ids
  rw [mem_foldl_union_snd]
  simp

theorem mem_set_referenced_by_polygons_and_networks
    (refs : List TopologicalReference) (x : FeatureId) :
    x ∈ set_referenced_by_polygons_and_networks refs ↔
      ∃ r ∈ refs, ∃ e ∈ r.references, x ∈ e.2 := by
  unfold set_referenced_by_polygons_and_networks
  have hfun : (fun (acc : Finset FeatureId) (r : TopologicalReference) =>
      r.get_references.foldl (fun acc e => acc ∪ e.2) acc) =
      (fun acc r => acc ∪ r.get_referenced_feature_ids) := by
    funext acc r
    ext y
    rw [mem_foldl_union_snd, Finset.mem_union, mem_get_referenced_feature_ids]
    rfl
  rw [hfun,
    mem_foldl_union (fun r : TopologicalReference => r.get_referenced_feature_ids)]
  simp [mem_get_referenced_feature_ids]

theorem mem_set_referenced_by_lines
    (lineRefs : List (FeatureId × TopologicalReference))
    (refs : List TopologicalReference) (x : FeatureId) :
    x ∈ set_referenced_by_lines_referenced_by_polygons_and_networks lineRefs refs ↔
      ∃ i ∈ set_referenced_by_polygons_and_networks refs,
        x ∈ line_referenced_ids lineRefs i := by
  unfold set_referenced_by_lines_referenced_by_polygons_and_networks
  have hfun : (fun (acc : Finset FeatureId) (r : TopologicalReference) =>
      r.get_references.foldl
        (fun acc e => acc ∪ e.2.biUnion (line_referenced_ids lineRefs)) acc) =
      (fun acc r =>
        acc ∪ r.get_references.foldl
          (fun acc e => acc ∪ e.2.biUnion (line_referenced_ids lineRefs)) ∅) := by
    funext acc r
    ext y
    rw [mem_foldl_union_biUnion, Finset.mem_union, mem_foldl_union_biUnion]
    simp
  rw [hfun, mem_foldl_union]
  simp only [Finset.not_mem_empty, false_or]
  constructor
  · rintro ⟨r, hr, hx⟩
    rw [mem_foldl_union_biUnion] at hx
    simp only [Finset.not_mem_empty, false_or] at hx
    obtain ⟨e, he, i, hi, hx⟩ := hx
    exact ⟨i, (mem_set_referenced_by_polygons_and_networks refs i).2
      ⟨r, hr, e, he, hi⟩, hx⟩
  · rintro ⟨i, hi, hx⟩
    rw [mem_set_referenced_by_polygons_and_networks] at hi
    obtain ⟨r, hr, e, he, hi⟩ := hi
    refine ⟨r, hr, ?_⟩
    rw [mem_foldl_union_biUnion]
    exact Or.inr ⟨e, he, i, hi, hx⟩

/-- The deletion loop is the order-preserving filter by the keep set. -/
theorem remove_not_kept_eq_filter (keep : Finset FeatureId) (l : List Feature) :
    remove_not_kept keep l = l.filter (fun f => decide (f.feature_id ∈ keep)) := by
  induction l with
  | nil => rfl
  | cons f l ih =>
      by_cases h : f.feature_id ∈ keep <;>
        simp [remove_not_kept, List.filter_cons, h, ih]

theorem mem_remove_not_kept (keep : Finset FeatureId) (l : List Feature) (f : Feature) :
    f ∈ remove_not_kept keep l ↔ f ∈ l ∧ f.feature_id ∈ keep := by
  rw [remove_not_kept_eq_filter, List.mem_filter]
  simp

theorem mem_pn_ids_of (l : List Feature) (x : FeatureId) :
    x ∈ pn_ids_of l ↔ ∃ f ∈ l, is_polygon_or_network f ∧ f.feature_id = x := by
  induction l with
  | nil => simp [pn_ids_of]
  | cons f l ih =>
      by_cases h : is_polygon_or_network f <;>
        simp [pn_ids_of, h, ih, Finset.mem_insert] <;> tauto

theorem mem_pn_refs_of (l : List Feature) (r : TopologicalReference) :
    r ∈ pn_refs_of l ↔
      ∃ f ∈ l, is_polygon_or_network f ∧ r = (visit_feature f).2 := by
  induction l with
  | nil => simp [pn_refs_of]
  | cons f l ih =>
      by_cases h : is_polygon_or_network f <;>
        simp [pn_refs_of, h, ih]

theorem mem_line_entries_of (l : List Feature)
    (e : FeatureId × TopologicalReference) :
    e ∈ line_entries_of l ↔
      ∃ f ∈ l, is_line f ∧ e = (f.feature_id, (visit_feature f).2) := by
  induction l with
  | nil => simp [line_entries_of]
  | cons f l ih =>
      by_cases h : is_line f <;>
        simp [line_entries_of, h, ih]

theorem line_entries_keys_sublist (l : List Feature) :
    ((line_entries_of l).map Prod.fst).Sublist (l.map Feature.feature_id) := by
  induction l with
  | nil => simp [line_entries_of]
  | cons f l ih =>
      by_cases h : is_line f
      · simpa [line_entries_of, h] using ih.cons₂ f.feature_id
      · simpa [line_entries_of, h] using ih.cons f.feature_id

/-- Any binding found by lookup is a bound entry of the list. -/
theorem lookup_mem {β : Type} (E : List (FeatureId × β)) (i : FeatureId) (r : β)
    (h : E.lookup i = some r) : (i, r) ∈ E := by
  induction E with
  | nil => simp [List.lookup] at h
  | cons e E ih =>
      obtain ⟨k, v⟩ := e
      by_cases hk : i = k
      · subst hk
        simp [List.lookup] at h
        simp [h]
      · have hne : (i == k) = false := by simpa using hk
        simp [List.lookup, hne] at h
        exact List.mem_cons_of_mem _ (ih h)

/-- With pairwise distinct keys, lookup finds exactly the bound entry. -/
theorem lookup_eq_of_mem_of_nodup {β : Type} (E : List (FeatureId × β))
    (hnd : (E.map Prod.fst).Nodup) (i : FeatureId) (r : β)
    (h : (i, r) ∈ E) : E.lookup i = some r := by
  induction E with
  | nil => simp at h
  | cons e E ih =>
      obtain ⟨k, v⟩ := e
      simp only [List.map_cons, List.nodup_cons] at hnd
      rcases List.mem_cons.1 h with h1 | h1
      · obtain ⟨hk, hv⟩ := Prod.mk.injEq .. ▸ h1
        injection h1 with h1a h1b
        subst h1a; subst h1b
        simp [List.lookup]
      · have hki : ¬ i = k := by
          intro he
          subst he
          exact hnd.1 (by simpa using List.mem_map_of_mem Prod.fst h1)
        have hne : (i == k) = false := by simpa using hki
        simp [List.lookup, hne]
        exact ih hnd.2 h1

/-- Forward direction of the line-dict bridge: ids delivered by the dict
come from some topological line feature with the looked-up id. -/
theorem line_referenced_ids_subset (fcs : List (List Feature))
    (i x : FeatureId)
    (hx : x ∈ line_referenced_ids
      ((line_entries_of fcs.flatten).reverse) i) :
    ∃ g ∈ fcs.flatten, is_line g ∧ g.feature_id = i ∧ x ∈ referenced_ids g := by
  unfold line_referenced_ids at hx
  cases hlook : List.lookup i (line_entries_of fcs.flatten).reverse with
  | none => rw [hlook] at hx; simp at hx
  | some r =>
      rw [hlook] at hx
      have hmem := lookup_mem _ _ _ hlook
      rw [List.mem_reverse, mem_line_entries_of] at hmem
      obtain ⟨g, hg, hline, he⟩ := hmem
      injection he with he1 he2
      exact ⟨g, hg, hline, he1.symm, by
        unfold referenced_ids
        rw [← he2]; exact hx⟩

/-- With globally distinct feature ids, the dict delivers exactly the
referenced ids of the line feature carrying the looked-up id. -/
theorem line_referenced_ids_eq (fcs : List (List Feature))
    (hids : (fcs.flatten.map Feature.feature_id).Nodup)
    (g : Feature) (hg : g ∈ fcs.flatten) (hline : is_line g) :
    line_referenced_ids ((line_entries_of fcs.flatten).reverse) g.feature_id =
      referenced_ids g := by
  have hkeys : (((line_entries_of fcs.flatten).reverse).map Prod.fst).Nodup := by
    rw [List.map_reverse, List.nodup_reverse]
    exact (line_entries_keys_sublist fcs.flatten).nodup hids
  have hmem : (g.feature_id, (visit_feature g).2) ∈
      (line_entries_of fcs.flatten).reverse := by
    rw [List.mem_reverse, mem_line_entries_of]
    exact ⟨g, hg, hline, rfl⟩
  unfold line_referenced_ids
  rw [lookup_eq_of_mem_of_nodup _ hkeys _ _ hmem]
  rfl

/-- Membership in the keep set, phrased through the three code sets. -/
theorem mem_feature_ids_to_keep (fcs : List (List Feature)) (x : FeatureId) :
    x ∈ feature_ids_to_keep fcs ↔
      x ∈ (gather fcs).set_feature_ids_of_topological_polygons_and_networks ∨
      x ∈ set_referenced_by_polygons_and_networks
        (gather fcs).topological_polygon_and_network_references ∨
      x ∈ set_referenced_by_lines_referenced_by_polygons_and_networks
        (gather fcs).topological_line_references
        (gather fcs).topological_polygon_and_network_references := by
  unfold feature_ids_to_keep
  simp [Finset.mem_union, or_assoc]

/-- The first keep-set component is exactly the spec description. -/
theorem pn_ids_spec (fcs : List (List Feature)) (x : FeatureId) :
    x ∈ (gather fcs).set_feature_ids_of_topological_polygons_and_networks ↔
      id_of_polygon_or_network fcs x := by
  rw [gather_eq]
  exact mem_pn_ids_of fcs.flatten x

/-- The second keep-set component is exactly the spec description. -/
theorem direct_spec (fcs : List (List Feature)) (x : FeatureId) :
    x ∈ set_referenced_by_polygons_and_networks
        (gather fcs).topological_polygon_and_network_references ↔
      directly_referenced fcs x := by
  rw [gather_eq]
  rw [mem_set_referenced_by_polygons_and_networks]
  unfold directly_referenced
  constructor
  · rintro ⟨r, hr, e, he, hx⟩
    rw [mem_pn_refs_of] at hr
    obtain ⟨f, hf, hpn, hrf⟩ := hr
    refine ⟨f, hf, hpn, ?_⟩
    unfold referenced_ids
    rw [mem_get_referenced_feature_ids]
    exact ⟨e, hrf ▸ he, hx⟩
  · rintro ⟨f, hf, hpn, hx⟩
    unfold referenced_ids at hx
    rw [mem_get_referenced_feature_ids] at hx
    obtain ⟨e, he, hx⟩ := hx
    exact ⟨(visit_feature f).2, (mem_pn_refs_of ..).2 ⟨f, hf, hpn, rfl⟩, e, he, hx⟩

/-- The third keep-set component, with globally distinct feature ids,
is exactly the spec description. -/
theorem via_line_spec (fcs : List (List Feature))
    (hids : (fcs.flatten.map Feature.feature_id).Nodup) (x : FeatureId) :
    x ∈ set_referenced_by_lines_referenced_by_polygons_and_networks
        (gather fcs).topological_line_references
        (gather fcs).topological_polygon_and_network_references ↔
      referenced_via_line fcs x := by
  rw [mem_set_referenced_by_lines]
  unfold referenced_via_line
  constructor
  · rintro ⟨i, hi, hx⟩
    rw [direct_spec] at hi
    rw [gather_eq] at hx
    obtain ⟨g, hg, hline, hgi, hx⟩ := line_referenced_ids_subset fcs i x hx
    exact ⟨g, hg, hline, hgi ▸ hi, hx⟩
  · rintro ⟨g, hg, hline, hdir, hx⟩
    refine ⟨g.feature_id, (direct_spec ..).2 hdir, ?_⟩
    rw [gather_eq]
    rw [line_referenced_ids_eq fcs hids g hg hline]
    exact hx

/-- The output collection at index i is the input collection at index i
run through the deletion loop with the global keep set. -/
theorem remove_features_getD (fcs : List (List Feature)) (i : Nat)
    (hi : i < fcs.length) (b : Bool) :
    (remove_features_not_referenced_by_topologies fcs b).getD i [] =
      remove_not_kept (feature_ids_to_keep fcs) (fcs.getD i []) := by
  unfold remove_features_not_referenced_by_topologies
  rw [List.getD_eq_getElem?_getD, List.getElem?_map,
    List.getElem?_eq_getElem hi, List.getD_eq_getElem?_getD,
    List.getElem?_eq_getElem hi]
  rfl

theorem getD_mem_of_lt (fcs : List (List Feature)) (i : Nat)
    (hi : i < fcs.length) : fcs.getD i [] ∈ fcs := by
  rw [List.getD_eq_getElem?_getD, List.getElem?_eq_getElem hi]
  exact List.getElem_mem hi

theorem mem_flatten_of_mem_getD (fcs : List (List Feature)) (i : Nat)
    (hi : i < fcs.length) (f : Feature) (hf : f ∈ fcs.getD i []) :
    f ∈ fcs.flatten :=
  List.mem_flatten.2 ⟨fcs.getD i [], getD_mem_of_lt fcs i hi, hf⟩

/-- With globally distinct feature ids, a topological line's id is not
the id of any polygon or network feature. -/
theorem line_id_not_polygon_or_network_id (fcs : List (List Feature))
    (hids : (fcs.flatten.map Feature.feature_id).Nodup)
    (f : Feature) (hf : f ∈ fcs.flatten) (hline : is_line f) :
    ¬ id_of_polygon_or_network fcs f.feature_id := by
  rintro ⟨g, hg, hpn, hgid⟩
  have hgf : g = f := List.inj_on_of_nodup_map hids hg hf hgid
  subst hgf
  exact line_not_polygon_or_network hline hpn

/-! ### Claim theorems -/

/-- C1: a non-topological feature survives the filter iff its feature id
is in the keep set described by the spec: ids of polygons/networks, union
ids directly referenced by some polygon/network across all its time
windows, union ids referenced by some line whose id is in the directly
referenced set. -/
theorem nonTopological_survives_iff (fcs : List (List Feature))
    (hids : (fcs.flatten.map Feature.feature_id).Nodup)
    (i : Nat) (hi : i < fcs.length) (f : Feature) (hf : f ∈ fcs.getD i [])
    (_hnt : topology_type_of f = none) :
    f ∈ (remove_features_not_referenced_by_topologies fcs).getD i [] ↔
      id_of_polygon_or_network fcs f.feature_id ∨
      directly_referenced fcs f.feature_id ∨
      referenced_via_line fcs f.feature_id := by
  rw [remove_features_getD fcs i hi, mem_remove_not_kept]
  constructor
  · rintro ⟨-, hk⟩
    rw [mem_feature_ids_to_keep] at hk
    rcases hk with h | h | h
    · exact Or.inl ((pn_ids_spec ..).1 h)
    · exact Or.inr (Or.inl ((direct_spec ..).1 h))
    · exact Or.inr (Or.inr ((via_line_spec fcs hids f.feature_id).1 h))
  · intro h
    refine ⟨hf, (mem_feature_ids_to_keep ..).2 ?_⟩
    rcases h with h | h | h
    · exact Or.inl ((pn_ids_spec ..).2 h)
    · exact Or.inr (Or.inl ((direct_spec ..).2 h))
    · exact Or.inr (Or.inr ((via_line_spec fcs hids f.feature_id).2 h))

/-- Witness for C1: the regular feature with id 6 survives because it is
referenced by line id 2, which is directly referenced by the polygon;
evaluated on the concrete example input. -/
theorem nonTopological_survives_iff_witness :
    example_via ∈
      (remove_features_not_referenced_by_topologies example_input).getD 0 [] :=
  (nonTopological_survives_iff example_input (by decide) 0 (by decide)
      example_via (by decide) (by decide)).2
    (Or.inr (Or.inr (by decide)))

/-- C3: every feature classified as a topological polygon or network is
present in the corresponding output collection; the filter never removes
it. -/
theorem polygons_and_networks_never_removed (fcs : List (List Feature))
    (i : Nat) (hi : i < fcs.length) (f : Feature) (hf : f ∈ fcs.getD i [])
    (hpn : is_polygon_or_network f) :
    f ∈ (remove_features_not_referenced_by_topologies fcs).getD i [] := by
  rw [remove_features_getD fcs i hi, mem_remove_not_kept]
  refine ⟨hf, (mem_feature_ids_to_keep ..).2 (Or.inl ((pn_ids_spec ..).2 ?_))⟩
  exact ⟨f, mem_flatten_of_mem_getD fcs i hi f hf, hpn, rfl⟩

/-- Witness for C3 on the concrete example input. -/
theorem polygons_and_networks_never_removed_witness :
    example_polygon ∈
      (remove_features_not_referenced_by_topologies example_input).getD 0 [] :=
  polygons_and_networks_never_removed example_input 0 (by decide)
    example_polygon (by decide) (by decide)

/-- C4 counterexample: line 3 is a topological line that is not directly
referenced by any polygon or network (it is referenced only by line 2),
yet it survives the filter, refuting the claim that a line survives only
if referenced by at least one polygon or network. -/
theorem line_survives_without_polygon_reference :
    is_line example_line2 ∧
    ¬ directly_referenced example_input example_line2.feature_id ∧
    example_line2 ∈
      (remove_features_not_referenced_by_topologies example_input).getD 0 [] := by
  decide

/-- C4 amended: a topological line survives the filter iff its id is
directly referenced by some polygon or network, or it is referenced by
some line whose id is directly referenced by a polygon or network; a
line referenced by nothing is removed. -/
theorem line_survives_iff_reachable (fcs : List (List Feature))
    (hids : (fcs.flatten.map Feature.feature_id).Nodup)
    (i : Nat) (hi : i < fcs.length) (f : Feature) (hf : f ∈ fcs.getD i [])
    (hline : is_line f) :
    f ∈ (remove_features_not_referenced_by_topologies fcs).getD i [] ↔
      directly_referenced fcs f.feature_id ∨
      referenced_via_line fcs f.feature_id := by
  rw [remove_features_getD fcs i hi, mem_remove_not_kept]
  constructor
  · rintro ⟨-, hk⟩
    rw [mem_feature_ids_to_keep] at hk
    rcases hk with h | h | h
    · exact absurd ((pn_ids_spec ..).1 h)
        (line_id_not_polygon_or_network_id fcs hids f
          (mem_flatten_of_mem_getD fcs i hi f hf) hline)
    · exact Or.inl ((direct_spec ..).1 h)
    · exact Or.inr ((via_line_spec fcs hids f.feature_id).1 h)
  · intro h
    refine ⟨hf, (mem_feature_ids_to_keep ..).2 ?_⟩
    rcases h with h | h
    · exact Or.inr (Or.inl ((direct_spec ..).2 h))
    · exact Or.inr (Or.inr ((via_line_spec fcs hids f.feature_id).2 h))

/-- Witness for the amended C4: line 2 survives because polygon 1
references its id directly. -/
theorem line_survives_iff_reachable_witness :
    example_line1 ∈
      (remove_features_not_referenced_by_topologies example_input).getD 0 [] :=
  (line_survives_iff_reachable example_input (by decide) 0 (by decide)
      example_line1 (by decide) (by decide)).2 (Or.inl (by decide))

/-- C6: once a topological line's id is directly referenced by some
polygon or network, every id that line references - the union over all
its time windows - is in the keep set. -/
theorem referenced_line_contributes_all_ids (fcs : List (List Feature))
    (hids : (fcs.flatten.map Feature.feature_id).Nodup)
    (f : Feature) (hf : f ∈ fcs.flatten) (hline : is_line f)
    (hdir : directly_referenced fcs f.feature_id) :
    referenced_ids f ⊆ feature_ids_to_keep fcs := by
  intro x hx
  exact (mem_feature_ids_to_keep ..).2
    (Or.inr (Or.inr ((via_line_spec fcs hids x).2 ⟨f, hf, hline, hdir, hx⟩)))

/-- Witness for C6 on the concrete example input. -/
theorem referenced_line_contributes_all_ids_witness :
    referenced_ids example_line1 ⊆ feature_ids_to_keep example_input :=
  referenced_line_contributes_all_ids example_input (by decide)
    example_line1 (by decide) (by decide) (by decide)

/-- C2: the restrict_referenced_feature_time_periods flag has no effect
whatsoever, and every output feature is an input feature returned
verbatim - in particular no feature's declared valid-time property is
ever modified, contradicting the documented contract of the flag. -/
theorem restrict_flag_never_restricts (fcs : List (List Feature)) (b : Bool) :
    remove_features_not_referenced_by_topologies fcs b =
      remove_features_not_referenced_by_topologies fcs false ∧
    ∀ fc ∈ remove_features_not_referenced_by_topologies fcs b,
      ∀ f ∈ fc, f ∈ fcs.flatten := by
  refine ⟨rfl, ?_⟩
  intro fc hfc f hf
  unfold remove_features_not_referenced_by_topologies at hfc
  rw [List.mem_map] at hfc
  obtain ⟨fc0, hfc0, heq⟩ := hfc
  rw [← heq, mem_remove_not_kept] at hf
  exact List.mem_flatten.2 ⟨fc0, hfc0, hf.1⟩

/-- Witness for C2: with the flag enabled, the surviving regular feature
id 4 comes back verbatim from the input. -/
theorem restrict_flag_never_restricts_witness :
    example_regular ∈ example_input.flatten :=
  (restrict_flag_never_restricts example_input true).2
    ((remove_features_not_referenced_by_topologies example_input true).getD 0 [])
    (by decide) example_regular (by decide)

/-- C9: the output has one collection per input collection, in order, and
each output collection is the order-preserving, duplication-free filter
of the corresponding input collection by the keep set (a sublist of the
input collection, so no feature migrates between collections). -/
theorem output_shape_and_order (fcs : List (List Feature)) :
    (remove_features_not_referenced_by_topologies fcs).length = fcs.length ∧
    ∀ i, i < fcs.length →
      (remove_features_not_referenced_by_topologies fcs).getD i [] =
        (fcs.getD i []).filter
          (fun f => decide (f.feature_id ∈ feature_ids_to_keep fcs)) ∧
      ((remove_features_not_referenced_by_topologies fcs).getD i []).Sublist
        (fcs.getD i []) := by
  constructor
  · simp [remove_features_not_referenced_by_topologies]
  · intro i hi
    rw [remove_features_getD fcs i hi, remove_not_kept_eq_filter]
    exact ⟨rfl, List.filter_sublist _⟩

/-- Witness for C9 on the concrete example input. -/
theorem output_shape_and_order_witness :
    (remove_features_not_referenced_by_topologies example_input).getD 0 [] =
      (example_input.getD 0 []).filter
        (fun f => decide (f.feature_id ∈ feature_ids_to_keep example_input)) ∧
    ((remove_features_not_referenced_by_topologies example_input).getD 0
        []).Sublist (example_input.getD 0 []) :=
  (output_shape_and_order example_input).2 0 (by decide)

/-! ### Visitor-level lemmas for C5 and C7 -/

/-- Visiting a topological leaf appends one reference tagged with the
current time period and sets the topology type. -/
theorem accept_topo_leaf (s : VisitorState) (v : PropertyValue) (t : GpmlType)
    (h : topo_kind v = some t) :
    accept_visitor s v =
      { s with
          topology_type := some t,
          references :=
            s.references ++ [(s.current_time_period, topo_ids v)] } := by
  cases v <;> simp [topo_kind] at h <;> subst h <;>
    simp [accept_visitor, topo_ids]

/-- The window loop over windows that all hold topological leaves records
one reference per window, tagged with that window's declared period. -/
theorem visit_time_windows_refs : ∀ (s : VisitorState) (ws : TimeWindows),
    (∀ w ∈ ws.toList, (topo_kind w.2).isSome) →
    (visit_time_windows s ws).references =
      s.references ++ ws.toList.map (fun w => (w.1, topo_ids w.2))
  | s, .nil, _ => by simp [visit_time_windows, TimeWindows.toList]
  | s, .cons tp v rest, h => by
      have hv : (topo_kind v).isSome := h (tp, v) (by simp [TimeWindows.toList])
      obtain ⟨t, ht⟩ := Option.isSome_iff_exists.1 hv
      have ih := visit_time_windows_refs
        { accept_visitor { s with current_time_period := tp } v with
            current_time_period := ALL_TIME } rest
        (fun w hw => h w (by simp [TimeWindows.toList, hw]))
      simp only [visit_time_windows]
      rw [ih, accept_topo_leaf _ v t ht]
      simp [TimeWindows.toList]

/-- Scanning a single property is just one visitor dispatch (whether or
not it assigns a topology type). -/
theorem visit_properties_singleton (s : VisitorState) (p : PropertyValue) :
    visit_properties s [p] = accept_visitor s p := by
  simp only [visit_properties]
  split <;> rfl

/-- C5: for a feature whose topological property is a time-dependent
aggregate of topological values, a sole time window is recorded with the
ALL_TIME period regardless of its declared begin/end, while two or more
windows are each recorded with their own declared period. -/
theorem single_time_window_treated_as_all_time (fid : FeatureId)
    (vt : GpmlType) (hvt : vt.isTopological = true) :
    (∀ (tp : TimePeriod) (v : PropertyValue) (t : GpmlType),
      topo_kind v = some t →
      (visit_feature
          ⟨fid, [.gpmlPiecewiseAggregation vt (.cons tp v .nil)]⟩).2.references =
        [(ALL_TIME, topo_ids v)]) ∧
    (∀ ws : TimeWindows, 2 ≤ ws.toList.length →
      (∀ w ∈ ws.toList, (topo_kind w.2).isSome) →
      (visit_feature ⟨fid, [.gpmlPiecewiseAggregation vt ws]⟩).2.references =
        ws.toList.map (fun w => (w.1, topo_ids w.2))) := by
  constructor
  · intro tp v t ht
    unfold visit_feature
    rw [visit_properties_singleton]
    simp only [accept_visitor, hvt, if_pos]
    rw [accept_topo_leaf _ v t ht]
    rfl
  · intro ws hlen hall
    unfold visit_feature
    rw [visit_properties_singleton]
    match ws, hlen with
    | .cons tp1 v1 (.cons tp2 v2 rest), _ =>
        simp only [accept_visitor, hvt, if_pos]
        rw [visit_time_windows_refs _ _ hall]
        rfl

/-- Witness for C5: a line-valued aggregation with one window declared
(age 10, age 5) records ALL_TIME, while two windows keep their declared
periods; both parts applied at concrete inputs. -/
theorem single_time_window_treated_as_all_time_witness :
    (visit_feature ⟨11, [.gpmlPiecewiseAggregation .topologicalLine
        (.cons (GeoTime.age 10, GeoTime.age 5)
          (.gpmlTopologicalLine [21]) .nil)]⟩).2.references =
      [(ALL_TIME, topo_ids (.gpmlTopologicalLine [21]))] ∧
    (visit_feature ⟨12, [.gpmlPiecewiseAggregation .topologicalLine
        (.cons (GeoTime.age 10, GeoTime.age 5) (.gpmlTopologicalLine [22])
          (.cons (GeoTime.age 5, GeoTime.age 0) (.gpmlTopologicalLine [23])
            .nil))]⟩).2.references =
      (TimeWindows.cons (GeoTime.age 10, GeoTime.age 5)
          (.gpmlTopologicalLine [22])
          (.cons (GeoTime.age 5, GeoTime.age 0) (.gpmlTopologicalLine [23])
            .nil)).toList.map (fun w => (w.1, topo_ids w.2)) :=
  ⟨(single_time_window_treated_as_all_time 11 .topologicalLine (by decide)).1
      (GeoTime.age 10, GeoTime.age 5) (.gpmlTopologicalLine [21])
      .topologicalLine (by decide),
    (single_time_window_treated_as_all_time 12 .topologicalLine (by decide)).2
      _ (by decide) (by decide)⟩

mutual
/-- A dispatch that assigns no topology type leaves the reference list
untouched (and can only happen when none was assigned before). -/
theorem accept_no_topo : ∀ (s : VisitorState) (v : PropertyValue),
    (accept_visitor s v).topology_type = none →
    (accept_visitor s v).references = s.references ∧ s.topology_type = none
  | s, .gpmlConstantValue v, h => accept_no_topo s v h
  | s, .gpmlPiecewiseAggregation vt (.cons tp v .nil), h => by
      by_cases hvt : vt.isTopological = true
      · have h' := h
        simp only [accept_visitor, if_pos hvt] at h' ⊢
        exact accept_no_topo s v h'
      · simp only [accept_visitor, if_neg hvt] at h ⊢
        exact ⟨by simp, h⟩
  | s, .gpmlPiecewiseAggregation vt .nil, h => by
      by_cases hvt : vt.isTopological = true
      · have h' := h
        simp only [accept_visitor, if_pos hvt] at h' ⊢
        exact visit_time_windows_no_topo s .nil h'
      · simp only [accept_visitor, if_neg hvt] at h ⊢
        exact ⟨by simp, h⟩
  | s, .gpmlPiecewiseAggregation vt (.cons tp v (.cons tp2 v2 rest)), h => by
      by_cases hvt : vt.isTopological = true
      · have h' := h
        simp only [accept_visitor, if_pos hvt] at h' ⊢
        exact visit_time_windows_no_topo s (.cons tp v (.cons tp2 v2 rest)) h'
      · simp only [accept_visitor, if_neg hvt] at h ⊢
        exact ⟨by simp, h⟩
  | s, .gpmlTopologicalLine sections, h => by
      simp [accept_visitor] at h
  | s, .gpmlTopologicalPolygon exteriorSections, h => by
      simp [accept_visitor] at h
  | s, .gpmlTopologicalNetwork boundarySections interiors, h => by
      simp [accept_visitor] at h
  | s, .otherValue, h => ⟨rfl, h⟩

/-- Window-loop version of accept_no_topo. -/
theorem visit_time_windows_no_topo : ∀ (s : VisitorState) (ws : TimeWindows),
    (visit_time_windows s ws).topology_type = none →
    (visit_time_windows s ws).references = s.references ∧
      s.topology_type = none
  | s, .nil, h => ⟨rfl, h⟩
  | s, .cons tp v rest, h => by
      simp only [visit_time_windows] at h ⊢
      obtain ⟨hrefs, htype⟩ := visit_time_windows_no_topo _ rest h
      obtain ⟨hrefs2, htype2⟩ :=
        accept_no_topo { s with current_time_period := tp } v htype
      exact ⟨hrefs.trans hrefs2, htype2⟩
end

mutual
/-- A dispatch entered with current_time_period = ALL_TIME leaves it at
ALL_TIME (the window loop restores it after every window). -/
theorem accept_period : ∀ (s : VisitorState) (v : PropertyValue),
    s.current_time_period = ALL_TIME →
    (accept_visitor s v).current_time_period = ALL_TIME
  | s, .gpmlConstantValue v, h => accept_period s v h
  | s, .gpmlPiecewiseAggregation vt (.cons tp v .nil), h => by
      by_cases hvt : vt.isTopological = true
      · simp only [accept_visitor, if_pos hvt]
        exact accept_period s v h
      · simp only [accept_visitor, if_neg hvt]
        exact h
  | s, .gpmlPiecewiseAggregation vt .nil, h => by
      by_cases hvt : vt.isTopological = true
      · simp only [accept_visitor, if_pos hvt]
        exact visit_time_windows_period s .nil h
      · simp only [accept_visitor, if_neg hvt]
        exact h
  | s, .gpmlPiecewiseAggregation vt (.cons tp v (.cons tp2 v2 rest)), h => by
      by_cases hvt : vt.isTopological = true
      · simp only [accept_visitor, if_pos hvt]
        exact visit_time_windows_period s (.cons tp v (.cons tp2 v2 rest)) h
      · simp only [accept_visitor, if_neg hvt]
        exact h
  | s, .gpmlTopologicalLine sections, h => h
  | s, .gpmlTopologicalPolygon exteriorSections, h => h
  | s, .gpmlTopologicalNetwork boundarySections interiors, h => h
  | s, .otherValue, h => h

/-- Window-loop version of accept_period. -/
theorem visit_time_windows_period : ∀ (s : VisitorState) (ws : TimeWindows),
    s.current_time_period = ALL_TIME →
    (visit_time_windows s ws).current_time_period = ALL_TIME
  | s, .nil, h => h
  | s, .cons tp v rest, _ => by
      simp only [visit_time_windows]
      exact visit_time_windows_period _ rest rfl
end

/-- A property whose visit assigns no topology type leaves the freshly
reset visitor state exactly unchanged. -/
theorem accept_no_topo_reset (q : PropertyValue)
    (h : (accept_visitor reset_state q).topology_type = none) :
    accept_visitor reset_state q = reset_state := by
  obtain ⟨hrefs, -⟩ := accept_no_topo reset_state q h
  have hper := accept_period reset_state q rfl
  cases hs : accept_visitor reset_state q
  rw [hs] at h hrefs hper
  simp only at h hrefs hper
  rw [h, hrefs, hper]
  rfl

/-- Leading properties that assign no topology type are skipped without
any effect on the scan of the remaining properties. -/
theorem visit_properties_skips (pre : List PropertyValue)
    (h : ∀ q ∈ pre, (accept_visitor reset_state q).topology_type = none)
    (rest : List PropertyValue) :
    visit_properties reset_state (pre ++ rest) =
      visit_properties reset_state rest := by
  induction pre with
  | nil => rfl
  | cons q pre ih =>
      have hq := accept_no_topo_reset q (h q (List.mem_cons_self ..))
      simp only [List.cons_append, visit_properties, hq]
      rw [if_neg (show ¬(reset_state.topology_type.isSome = true) by
        simp [reset_state])]
      exact ih (fun q' hq' => h q' (List.mem_cons_of_mem _ hq'))

/-- C7: the extraction result of a feature is decided by the first
property whose visit assigns a topology type: the properties before it
contribute nothing, and the properties after it are never scanned, so
the result reflects at most that one topological property. -/
theorem first_topological_property_determines_extraction (fid : FeatureId)
    (pre : List PropertyValue) (p : PropertyValue) (post : List PropertyValue)
    (t : GpmlType)
    (hpre : ∀ q ∈ pre, (accept_visitor reset_state q).topology_type = none)
    (hp : (accept_visitor reset_state p).topology_type = some t) :
    visit_feature ⟨fid, pre ++ p :: post⟩ =
      (some t,
        ⟨⟨fid, pre ++ p :: post⟩, (accept_visitor reset_state p).references⟩) := by
  unfold visit_feature
  rw [visit_properties_skips pre hpre (p :: post)]
  simp only [visit_properties]
  rw [if_pos (by rw [hp]; rfl)]
  rw [hp]

/-- Witness for C7: with a non-topological leading property, a line
property, and a polygon property after it, the extraction returns the
line's result and ignores the polygon. -/
theorem first_topological_property_determines_extraction_witness :
    visit_feature ⟨9, [PropertyValue.otherValue,
        .gpmlTopologicalLine [7], .gpmlTopologicalPolygon [8]]⟩ =
      (some GpmlType.topologicalLine,
        ⟨⟨9, [PropertyValue.otherValue, .gpmlTopologicalLine [7],
            .gpmlTopologicalPolygon [8]]⟩,
          (accept_visitor reset_state (.gpmlTopologicalLine [7])).references⟩) :=
  first_topological_property_determines_extraction 9 [PropertyValue.otherValue]
    (.gpmlTopologicalLine [7]) [.gpmlTopologicalPolygon [8]]
    GpmlType.topologicalLine (by decide) (by decide)

/-! ### Idempotence (C8) -/

/-- The flattened output is the flattened input filtered by the keep set. -/
theorem flatten_map_remove (keep : Finset FeatureId) (fcs : List (List Feature)) :
    (fcs.map (remove_not_kept keep)).flatten =
      fcs.flatten.filter (fun f => decide (f.feature_id ∈ keep)) := by
  induction fcs with
  | nil => rfl
  | cons fc fcs ih =>
      simp only [List.map_cons, List.flatten_cons, ih,
        remove_not_kept_eq_filter, List.filter_append]

/-- Filtering by the keep set does not disturb the polygon/network ids
when every polygon/network id passes the filter. -/
theorem pn_ids_of_filter (p : Feature → Bool) (l : List Feature)
    (h : ∀ f ∈ l, is_polygon_or_network f → p f = true) :
    pn_ids_of (l.filter p) = pn_ids_of l := by
  induction l with
  | nil => rfl
  | cons f l ih =>
      have ih' := ih (fun g hg => h g (List.mem_cons_of_mem _ hg))
      by_cases hpn : is_polygon_or_network f
      · rw [List.filter_cons, h f (List.mem_cons_self ..) hpn]
        simp [pn_ids_of, hpn, ih']
      · rw [List.filter_cons]
        cases hp : p f <;>
          simp [pn_ids_of, hpn, ih']

/-- Filtering by the keep set does not disturb the polygon/network
reference list when every polygon/network id passes the filter. -/
theorem pn_refs_of_filter (p : Feature → Bool) (l : List Feature)
    (h : ∀ f ∈ l, is_polygon_or_network f → p f = true) :
    pn_refs_of (l.filter p) = pn_refs_of l := by
  induction l with
  | nil => rfl
  | cons f l ih =>
      have ih' := ih (fun g hg => h g (List.mem_cons_of_mem _ hg))
      by_cases hpn : is_polygon_or_network f
      · rw [List.filter_cons, h f (List.mem_cons_self ..) hpn]
        simp [pn_refs_of, hpn, ih']
      · rw [List.filter_cons]
        cases hp : p f <;>
          simp [pn_refs_of, hpn, ih']

/-- Filtering the features by id filters the line dict entries by key. -/
theorem line_entries_of_filter (keep : Finset FeatureId) (l : List Feature) :
    line_entries_of (l.filter (fun f => decide (f.feature_id ∈ keep))) =
      (line_entries_of l).filter (fun e => decide (e.1 ∈ keep)) := by
  induction l with
  | nil => rfl
  | cons f l ih =>
      by_cases hline : is_line f
      · by_cases hk : f.feature_id ∈ keep
        · simp [List.filter_cons, hk, line_entries_of, hline, ih]
        · simp [List.filter_cons, hk, line_entries_of, hline, ih]
      · rw [List.filter_cons]
        cases hp : decide (f.feature_id ∈ keep) <;>
          simp [line_entries_of, hline, ih]

/-- For a key that passes the filter, lookup in the filtered association
list agrees with lookup in the original. -/
theorem lookup_filter {β : Type} (keep : Finset FeatureId)
    (E : List (FeatureId × β)) (i : FeatureId) (hi : i ∈ keep) :
    (E.filter (fun e => decide (e.1 ∈ keep))).lookup i = E.lookup i := by
  induction E with
  | nil => rfl
  | cons e E ih =>
      obtain ⟨k, v⟩ := e
      by_cases hk : i = k
      · subst hk
        simp [List.filter_cons, hi, List.lookup]
      · have hne : (i == k) = false := by simpa using hk
        by_cases hkk : k ∈ keep
        · simp [List.filter_cons, hkk, List.lookup, hne, ih]
        · simp [List.filter_cons, hkk, List.lookup, hne, ih]

/-- Every polygon/network feature's id is in the keep set. -/
theorem pn_mem_keep (fcs : List (List Feature)) (f : Feature)
    (hf : f ∈ fcs.flatten) (hpn : is_polygon_or_network f) :
    f.feature_id ∈ feature_ids_to_keep fcs :=
  (mem_feature_ids_to_keep ..).2 (Or.inl ((pn_ids_spec ..).2 ⟨f, hf, hpn, rfl⟩))

/-- Every directly referenced id is in the keep set. -/
theorem direct_subset_keep (fcs : List (List Feature)) (i : FeatureId)
    (hi : i ∈ set_referenced_by_polygons_and_networks
      (gather fcs).topological_polygon_and_network_references) :
    i ∈ feature_ids_to_keep fcs :=
  (mem_feature_ids_to_keep ..).2 (Or.inr (Or.inl hi))

/-- Membership in the keep set, phrased through the compositional views
of the gather state. -/
theorem mem_keep_components (fcs : List (List Feature)) (x : FeatureId) :
    x ∈ feature_ids_to_keep fcs ↔
      x ∈ pn_ids_of fcs.flatten ∨
      x ∈ set_referenced_by_polygons_and_networks (pn_refs_of fcs.flatten) ∨
      x ∈ set_referenced_by_lines_referenced_by_polygons_and_networks
        ((line_entries_of fcs.flatten).reverse) (pn_refs_of fcs.flatten) := by
  have h := mem_feature_ids_to_keep fcs x
  rw [gather_eq] at h
  exact h

/-- Filtering the line dict by the keep set does not change the third
keep-set component, because every consulted key is directly referenced
and hence in the keep set. -/
theorem set_via_filter_stable (fcs : List (List Feature)) (x : FeatureId) :
    x ∈ set_referenced_by_lines_referenced_by_polygons_and_networks
        (((line_entries_of fcs.flatten).filter
          (fun e => decide (e.1 ∈ feature_ids_to_keep fcs))).reverse)
        (pn_refs_of fcs.flatten) ↔
      x ∈ set_referenced_by_lines_referenced_by_polygons_and_networks
        ((line_entries_of fcs.flatten).reverse) (pn_refs_of fcs.flatten) := by
  rw [mem_set_referenced_by_lines, mem_set_referenced_by_lines]
  constructor <;> rintro ⟨i, hi, hx⟩ <;> refine ⟨i, hi, ?_⟩ <;>
    have hikeep : i ∈ feature_ids_to_keep fcs := by
      apply direct_subset_keep
      rw [gather_eq]
      exact hi
  · unfold line_referenced_ids at hx ⊢
    rw [← List.filter_reverse, lookup_filter _ _ _ hikeep] at hx
    exact hx
  · unfold line_referenced_ids at hx ⊢
    rw [← List.filter_reverse, lookup_filter _ _ _ hikeep]
    exact hx

/-- Rerunning the gather-and-resolve pass on the filtered output computes
the same keep set as the first run. -/
theorem feature_ids_to_keep_stable (fcs : List (List Feature)) (b : Bool) :
    feature_ids_to_keep (remove_features_not_referenced_by_topologies fcs b) =
      feature_ids_to_keep fcs := by
  have hflat : (remove_features_not_referenced_by_topologies fcs b).flatten =
      fcs.flatten.filter
        (fun f => decide (f.feature_id ∈ feature_ids_to_keep fcs)) :=
    flatten_map_remove _ fcs
  have hpn : ∀ f ∈ fcs.flatten, is_polygon_or_network f →
      decide (f.feature_id ∈ feature_ids_to_keep fcs) = true := by
    intro f hf hpn
    simpa using pn_mem_keep fcs f hf hpn
  have hpn_ids : pn_ids_of
      (remove_features_not_referenced_by_topologies fcs b).flatten =
      pn_ids_of fcs.flatten := by
    rw [hflat]; exact pn_ids_of_filter _ _ hpn
  have hpn_refs : pn_refs_of
      (remove_features_not_referenced_by_topologies fcs b).flatten =
      pn_refs_of fcs.flatten := by
    rw [hflat]; exact pn_refs_of_filter _ _ hpn
  have hline : line_entries_of
      (remove_features_not_referenced_by_topologies fcs b).flatten =
      (line_entries_of fcs.flatten).filter
        (fun e => decide (e.1 ∈ feature_ids_to_keep fcs)) := by
    rw [hflat]; exact line_entries_of_filter _ _
  ext x
  rw [mem_keep_components, mem_keep_components, hpn_ids, hpn_refs, hline]
  exact or_congr Iff.rfl (or_congr Iff.rfl (set_via_filter_stable fcs x))

/-- C8: the filter is idempotent; applying it to its own output returns
that output unchanged. -/
theorem remove_features_idempotent (fcs : List (List Feature)) :
    remove_features_not_referenced_by_topologies
      (remove_features_not_referenced_by_topologies fcs) =
    remove_features_not_referenced_by_topologies fcs := by
  conv_lhs =>
    rw [remove_features_not_referenced_by_topologies,
      feature_ids_to_keep_stable fcs false]
  conv_lhs =>
    rw [remove_features_not_referenced_by_topologies]
  rw [List.map_map]
  apply List.map_congr_left
  intro fc _
  simp only [Function.comp_apply]
  rw [remove_not_kept_eq_filter, remove_not_kept_eq_filter, List.filter_filter]
  congr 1
  funext f
  rw [Bool.and_self]

/-! ### Time-period noninterference (C10) -/

mutual
/-- Visiting two values that differ only in declared topological window
periods from states agreeing on topology type and reference id sets
yields states that still agree on those two observables. -/
theorem accept_same (v1 v2 : PropertyValue) (s1 s2 : VisitorState)
    (h : same_pv v1 v2 = true) (hs : state_rel s1 s2) :
    state_rel (accept_visitor s1 v1) (accept_visitor s2 v2) := by
  cases v1 with
  | gpmlConstantValue a =>
      cases v2 <;> simp only [same_pv] at h <;>
        first
          | simp only [Bool.false_eq_true] at h
          | (rename_i b
             simpa only [accept_visitor] using accept_same a b s1 s2 h hs)
  | gpmlPiecewiseAggregation vta wsa =>
      cases v2 <;>
        simp only [same_pv, Bool.and_eq_true, decide_eq_true_eq] at h <;>
        first
          | simp only [Bool.false_eq_true] at h
          | (rename_i vtb wsb
             obtain ⟨hvt, hws⟩ := h
             subst hvt
             cases wsa with
             | nil =>
                 cases wsb with
                 | nil =>
                     by_cases htopo : vta.isTopological = true
                     · simpa only [accept_visitor, if_pos htopo,
                         visit_time_windows] using hs
                     · simpa only [accept_visitor, if_neg htopo] using hs
                 | cons tpb vb rb => simp [same_time_windows] at hws
             | cons tpa va ra =>
                 cases wsb with
                 | nil => simp [same_time_windows] at hws
                 | cons tpb vb rb =>
                     cases ra with
                     | nil =>
                         cases rb with
                         | nil =>
                             simp only [same_time_windows, Bool.and_eq_true]
                               at hws
                             by_cases htopo : vta.isTopological = true
                             · simp only [accept_visitor, if_pos htopo]
                               exact accept_same va vb s1 s2 hws.1.2 hs
                             · simpa only [accept_visitor, if_neg htopo] using hs
                         | cons tpb2 vb2 rb2 => simp [same_time_windows] at hws
                     | cons tpa2 va2 ra2 =>
                         cases rb with
                         | nil => simp [same_time_windows] at hws
                         | cons tpb2 vb2 rb2 =>
                             by_cases htopo : vta.isTopological = true
                             · simp only [accept_visitor, if_pos htopo]
                               exact visit_tws_same vta.isTopological
                                 (.cons tpa va (.cons tpa2 va2 ra2))
                                 (.cons tpb vb (.cons tpb2 vb2 rb2)) s1 s2
                                 hws hs
                             · simpa only [accept_visitor, if_neg htopo] using hs)
  | gpmlTopologicalLine sa =>
      cases v2 <;>
        simp only [same_pv, decide_eq_true_eq] at h <;>
        first
          | simp only [Bool.false_eq_true] at h
          | (subst h
             exact ⟨by simp [accept_visitor, hs.1],
               by simp [accept_visitor, List.map_append, hs.2]⟩)
  | gpmlTopologicalPolygon sa =>
      cases v2 <;>
        simp only [same_pv, decide_eq_true_eq] at h <;>
        first
          | simp only [Bool.false_eq_true] at h
          | (subst h
             exact ⟨by simp [accept_visitor, hs.1],
               by simp [accept_visitor, List.map_append, hs.2]⟩)
  | gpmlTopologicalNetwork ba ia =>
      cases v2 <;>
        simp only [same_pv, Bool.and_eq_true, decide_eq_true_eq] at h <;>
        first
          | simp only [Bool.false_eq_true] at h
          | (obtain ⟨h1, h2⟩ := h
             subst h1
             subst h2
             exact ⟨by simp [accept_visitor, hs.1],
               by simp [accept_visitor, List.map_append, hs.2]⟩)
  | otherValue =>
      cases v2 <;> simp only [same_pv] at h <;>
        first
          | simp only [Bool.false_eq_true] at h
          | simpa only [accept_visitor] using hs
termination_by sizeOf v1

/-- Window-loop version of accept_same. -/
theorem visit_tws_same (pf : Bool) (ws1 ws2 : TimeWindows)
    (s1 s2 : VisitorState) (h : same_time_windows pf ws1 ws2 = true)
    (hs : state_rel s1 s2) :
    state_rel (visit_time_windows s1 ws1) (visit_time_windows s2 ws2) := by
  cases ws1 with
  | nil =>
      cases ws2 with
      | nil => simpa only [visit_time_windows] using hs
      | cons tpb vb rb => simp [same_time_windows] at h
  | cons tpa va ra =>
      cases ws2 with
      | nil => simp [same_time_windows] at h
      | cons tpb vb rb =>
          simp only [same_time_windows, Bool.and_eq_true] at h
          obtain ⟨⟨hp, hv⟩, hrest⟩ := h
          simp only [visit_time_windows]
          have h1 := accept_same va vb
            { s1 with current_time_period := tpa }
            { s2 with current_time_period := tpb } hv hs
          exact visit_tws_same pf ra rb _ _ hrest h1
termination_by sizeOf ws1
end

/-- Property-loop version of accept_same: the scan stops at the same
property on both sides and keeps the observables related. -/
theorem visit_properties_same : ∀ (ps1 ps2 : List PropertyValue)
    (s1 s2 : VisitorState), same_properties ps1 ps2 = true →
    state_rel s1 s2 →
    state_rel (visit_properties s1 ps1) (visit_properties s2 ps2)
  | [], [], s1, s2, _, hs => hs
  | [], _ :: _, _, _, h, _ => by simp [same_properties] at h
  | _ :: _, [], _, _, h, _ => by simp [same_properties] at h
  | p :: ps, q :: qs, s1, s2, h, hs => by
      simp only [same_properties, Bool.and_eq_true] at h
      obtain ⟨hpq, hrest⟩ := h
      have h1 := accept_same p q s1 s2 hpq hs
      simp only [visit_properties]
      rw [h1.1]
      by_cases hsome : (accept_visitor s2 q).topology_type.isSome = true
      · rw [if_pos hsome, if_pos hsome]
        exact h1
      · rw [if_neg hsome, if_neg hsome]
        exact visit_properties_same ps qs _ _ hrest h1

/-- Features differing only in declared topological window periods get
the same id, the same topology type and the same reference id sets. -/
theorem visit_feature_same (f g : Feature) (h : same_feature f g = true) :
    f.feature_id = g.feature_id ∧
    (visit_feature f).1 = (visit_feature g).1 ∧
    (visit_feature f).2.references.map Prod.snd =
      (visit_feature g).2.references.map Prod.snd := by
  simp only [same_feature, Bool.and_eq_true, decide_eq_true_eq] at h
  obtain ⟨hid, hprops⟩ := h
  have h1 := visit_properties_same f.properties g.properties
    reset_state reset_state hprops ⟨rfl, rfl⟩
  exact ⟨hid, h1.1, h1.2⟩

/-- Pointwise-related feature lists concatenate to pointwise-related
lists. -/
theorem same_features_append : ∀ (a1 a2 b1 b2 : List Feature),
    same_features a1 a2 = true → same_features b1 b2 = true →
    same_features (a1 ++ b1) (a2 ++ b2) = true
  | [], [], _, _, _, hb => hb
  | [], _ :: _, _, _, ha, _ => by simp [same_features] at ha
  | _ :: _, [], _, _, ha, _ => by simp [same_features] at ha
  | f :: fs, g :: gs, b1, b2, ha, hb => by
      simp only [same_features, Bool.and_eq_true] at ha
      simp only [List.cons_append, same_features, Bool.and_eq_true]
      exact ⟨ha.1, same_features_append fs gs b1 b2 ha.2 hb⟩

/-- Pointwise-related collection lists flatten to pointwise-related
feature lists. -/
theorem same_features_flatten : ∀ (fcs1 fcs2 : List (List Feature)),
    same_collections fcs1 fcs2 = true →
    same_features fcs1.flatten fcs2.flatten = true
  | [], [], _ => rfl
  | [], _ :: _, h => by simp [same_collections] at h
  | _ :: _, [], h => by simp [same_collections] at h
  | fc :: fcs1, gc :: fcs2, h => by
      simp only [same_collections, Bool.and_eq_true] at h
      simp only [List.flatten_cons]
      exact same_features_append fc gc fcs1.flatten fcs2.flatten h.1
        (same_features_flatten fcs1 fcs2 h.2)

/-- Related features have the same classification. -/
theorem is_pn_iff_of_same (f g : Feature) (h : same_feature f g = true) :
    is_polygon_or_network f ↔ is_polygon_or_network g := by
  unfold is_polygon_or_network topology_type_of
  rw [(visit_feature_same f g h).2.1]

/-- Related features have the same line classification. -/
theorem is_line_iff_of_same (f g : Feature) (h : same_feature f g = true) :
    is_line f ↔ is_line g := by
  unfold is_line topology_type_of
  rw [(visit_feature_same f g h).2.1]

/-- Related feature lists produce the same polygon/network id set. -/
theorem pn_ids_of_same : ∀ (l1 l2 : List Feature),
    same_features l1 l2 = true → pn_ids_of l1 = pn_ids_of l2
  | [], [], _ => rfl
  | [], _ :: _, h => by simp [same_features] at h
  | _ :: _, [], h => by simp [same_features] at h
  | f :: fs, g :: gs, h => by
      simp only [same_features, Bool.and_eq_true] at h
      obtain ⟨hfg, hrest⟩ := h
      have hpn := is_pn_iff_of_same f g hfg
      have hid := (visit_feature_same f g hfg).1
      by_cases hp : is_polygon_or_network f
      · simp [pn_ids_of, hp, hpn.1 hp, hid, pn_ids_of_same fs gs hrest]
      · simp [pn_ids_of, hp, mt hpn.2 hp, pn_ids_of_same fs gs hrest]

/-- Related feature lists produce polygon/network reference lists with
identical reference id sets position by position. -/
theorem pn_refs_snd_of_same : ∀ (l1 l2 : List Feature),
    same_features l1 l2 = true →
    (pn_refs_of l1).map (fun r => r.references.map Prod.snd) =
      (pn_refs_of l2).map (fun r => r.references.map Prod.snd)
  | [], [], _ => rfl
  | [], _ :: _, h => by simp [same_features] at h
  | _ :: _, [], h => by simp [same_features] at h
  | f :: fs, g :: gs, h => by
      simp only [same_features, Bool.and_eq_true] at h
      obtain ⟨hfg, hrest⟩ := h
      have hpn := is_pn_iff_of_same f g hfg
      have hrefs := (visit_feature_same f g hfg).2.2
      by_cases hp : is_polygon_or_network f
      · simp [pn_refs_of, hp, hpn.1 hp, hrefs,
          pn_refs_snd_of_same fs gs hrest]
      · simp [pn_refs_of, hp, mt hpn.2 hp, pn_refs_snd_of_same fs gs hrest]

/-- Related feature lists produce line dicts with identical keys and
identical per-entry reference id sets. -/
theorem line_entries_keyed_of_same : ∀ (l1 l2 : List Feature),
    same_features l1 l2 = true →
    (line_entries_of l1).map (fun e => (e.1, e.2.references.map Prod.snd)) =
      (line_entries_of l2).map (fun e => (e.1, e.2.references.map Prod.snd))
  | [], [], _ => rfl
  | [], _ :: _, h => by simp [same_features] at h
  | _ :: _, [], h => by simp [same_features] at h
  | f :: fs, g :: gs, h => by
      simp only [same_features, Bool.and_eq_true] at h
      obtain ⟨hfg, hrest⟩ := h
      have hline := is_line_iff_of_same f g hfg
      have hid := (visit_feature_same f g hfg).1
      have hrefs := (visit_feature_same f g hfg).2.2
      by_cases hp : is_line f
      · simp [line_entries_of, hp, hline.1 hp, hid, hrefs,
          line_entries_keyed_of_same fs gs hrest]
      · simp [line_entries_of, hp, mt hline.2 hp,
          line_entries_keyed_of_same fs gs hrest]

/-- A reference record's id-set union is determined by its reference id
sets. -/
theorem grfi_of_snd_eq (r1 r2 : TopologicalReference)
    (h : r1.references.map Prod.snd = r2.references.map Prod.snd) :
    r1.get_referenced_feature_ids = r2.get_referenced_feature_ids := by
  ext x
  rw [mem_get_referenced_feature_ids, mem_get_referenced_feature_ids]
  constructor <;> rintro ⟨e, he, hx⟩
  · have hmem : e.2 ∈ r2.references.map Prod.snd := by
      rw [← h]; exact List.mem_map_of_mem Prod.snd he
    obtain ⟨e2, he2, heq⟩ := List.mem_map.1 hmem
    exact ⟨e2, he2, by rw [heq]; exact hx⟩
  · have hmem : e.2 ∈ r1.references.map Prod.snd := by
      rw [h]; exact List.mem_map_of_mem Prod.snd he
    obtain ⟨e2, he2, heq⟩ := List.mem_map.1 hmem
    exact ⟨e2, he2, by rw [heq]; exact hx⟩

/-- The directly-referenced set only depends on the reference id sets. -/
theorem direct_subset_of_snd (refs1 refs2 : List TopologicalReference)
    (h : refs1.map (fun r => r.references.map Prod.snd) =
      refs2.map (fun r => r.references.map Prod.snd)) :
    set_referenced_by_polygons_and_networks refs1 ⊆
      set_referenced_by_polygons_and_networks refs2 := by
  intro x hx
  rw [mem_set_referenced_by_polygons_and_networks] at hx ⊢
  obtain ⟨r, hr, e, he, hx⟩ := hx
  have hmem : r.references.map Prod.snd ∈
      refs2.map (fun r => r.references.map Prod.snd) := by
    rw [← h]; exact List.mem_map_of_mem _ hr
  obtain ⟨r2, hr2, heq⟩ := List.mem_map.1 hmem
  have hmem2 : e.2 ∈ r2.references.map Prod.snd := by
    rw [heq]; exact List.mem_map_of_mem Prod.snd he
  obtain ⟨e2, he2, heq2⟩ := List.mem_map.1 hmem2
  exact ⟨r2, hr2, e2, he2, by rw [heq2]; exact hx⟩

theorem direct_eq_of_snd (refs1 refs2 : List TopologicalReference)
    (h : refs1.map (fun r => r.references.map Prod.snd) =
      refs2.map (fun r => r.references.map Prod.snd)) :
    set_referenced_by_polygons_and_networks refs1 =
      set_referenced_by_polygons_and_networks refs2 :=
  Finset.Subset.antisymm (direct_subset_of_snd refs1 refs2 h)
    (direct_subset_of_snd refs2 refs1 h.symm)

/-- Lookup in two association lists with identical keys and related
values delivers related values. -/
theorem lookup_keyed {γ : Type} (g : TopologicalReference → γ) :
    ∀ (E1 E2 : List (FeatureId × TopologicalReference)),
    E1.map (fun e => (e.1, g e.2)) = E2.map (fun e => (e.1, g e.2)) →
    ∀ i, Option.map g (E1.lookup i) = Option.map g (E2.lookup i)
  | [], [], _, i => rfl
  | [], _ :: _, h, _ => by simp at h
  | _ :: _, [], h, _ => by simp at h
  | e1 :: E1, e2 :: E2, h, i => by
      simp only [List.map_cons, List.cons.injEq, Prod.mk.injEq] at h
      obtain ⟨⟨hkey, hval⟩, hrest⟩ := h
      by_cases hk : i = e1.1
      · obtain ⟨k1, v1⟩ := e1
        obtain ⟨k2, v2⟩ := e2
        simp only at hkey hval hk
        subst hk
        subst hkey
        simp [List.lookup, hval]
      · obtain ⟨k1, v1⟩ := e1
        obtain ⟨k2, v2⟩ := e2
        simp only at hkey hval hk
        have hne1 : (i == k1) = false := by simpa using hk
        have hne2 : (i == k2) = false := by
          rw [← hkey]; simpa using hk
        simp only [List.lookup, hne1, hne2]
        exact lookup_keyed g E1 E2 hrest i

/-- The ids the line dict delivers only depend on its keys and per-entry
reference id sets. -/
theorem line_ids_eq_of_keyed (E1 E2 : List (FeatureId × TopologicalReference))
    (h : E1.map (fun e => (e.1, e.2.references.map Prod.snd)) =
      E2.map (fun e => (e.1, e.2.references.map Prod.snd)))
    (i : FeatureId) :
    line_referenced_ids E1 i = line_referenced_ids E2 i := by
  have h2 := lookup_keyed (fun r => r.references.map Prod.snd) E1 E2 h i
  unfold line_referenced_ids
  cases h1 : E1.lookup i with
  | none =>
      rw [h1] at h2
      cases h1b : E2.lookup i with
      | none => rfl
      | some r2 => rw [h1b] at h2; simp at h2
  | some r1 =>
      rw [h1] at h2
      cases h1b : E2.lookup i with
      | none => rw [h1b] at h2; simp at h2
      | some r2 =>
          rw [h1b] at h2
          exact grfi_of_snd_eq r1 r2 (Option.some.inj h2)

/-- Inputs related by same_collections compute the same keep set. -/
theorem keep_eq_of_same (fcs1 fcs2 : List (List Feature))
    (h : same_collections fcs1 fcs2 = true) :
    feature_ids_to_keep fcs1 = feature_ids_to_keep fcs2 := by
  have hflat := same_features_flatten fcs1 fcs2 h
  have hdir := direct_eq_of_snd _ _
    (pn_refs_snd_of_same fcs1.flatten fcs2.flatten hflat)
  have hkeyed : ((line_entries_of fcs1.flatten).reverse).map
      (fun e => (e.1, e.2.references.map Prod.snd)) =
      ((line_entries_of fcs2.flatten).reverse).map
        (fun e => (e.1, e.2.references.map Prod.snd)) := by
    rw [List.map_reverse, List.map_reverse,
      line_entries_keyed_of_same fcs1.flatten fcs2.flatten hflat]
  ext x
  rw [mem_keep_components, mem_keep_components,
    pn_ids_of_same fcs1.flatten fcs2.flatten hflat, hdir]
  refine or_congr Iff.rfl (or_congr Iff.rfl ?_)
  rw [mem_set_referenced_by_lines, mem_set_referenced_by_lines, hdir]
  constructor <;> rintro ⟨i, hi, hx⟩ <;> refine ⟨i, hi, ?_⟩
  · rw [← line_ids_eq_of_keyed _ _ hkeyed i]; exact hx
  · rw [line_ids_eq_of_keyed _ _ hkeyed i]; exact hx

/-- The deletion loop preserves the same_features relation when driven
by the same keep set (related features share their id). -/
theorem remove_not_kept_same (k : Finset FeatureId) :
    ∀ (l1 l2 : List Feature), same_features l1 l2 = true →
    same_features (remove_not_kept k l1) (remove_not_kept k l2) = true
  | [], [], _ => rfl
  | [], _ :: _, h => by simp [same_features] at h
  | _ :: _, [], h => by simp [same_features] at h
  | f :: fs, g :: gs, h => by
      simp only [same_features, Bool.and_eq_true] at h
      obtain ⟨hfg, hrest⟩ := h
      have hid := (visit_feature_same f g hfg).1
      simp only [remove_not_kept, ← hid]
      by_cases hk : f.feature_id ∈ k
      · rw [if_pos hk, if_pos hk]
        simp only [same_features, Bool.and_eq_true]
        exact ⟨hfg, remove_not_kept_same k fs gs hrest⟩
      · rw [if_neg hk, if_neg hk]
        exact remove_not_kept_same k fs gs hrest

/-- Mapping the deletion loop over related collection lists preserves
the relation. -/
theorem map_remove_same (k : Finset FeatureId) :
    ∀ (fcs1 fcs2 : List (List Feature)), same_collections fcs1 fcs2 = true →
    same_collections (fcs1.map (remove_not_kept k))
      (fcs2.map (remove_not_kept k)) = true
  | [], [], _ => rfl
  | [], _ :: _, h => by simp [same_collections] at h
  | _ :: _, [], h => by simp [same_collections] at h
  | fc :: fcs1, gc :: fcs2, h => by
      simp only [same_collections, Bool.and_eq_true] at h
      simp only [List.map_cons, same_collections, Bool.and_eq_true]
      exact ⟨remove_not_kept_same k fc gc h.1,
        map_remove_same k fcs1 fcs2 h.2⟩

/-- C10 counterexample: two inputs identical except for the declared
period of a topological window produce different outputs (the surviving
polygon carries its own, differing window), refuting the claim that the
outputs are identical. -/
theorem outputs_differ_under_time_period_change :
    same_collections example_period_input1 example_period_input2 = true ∧
    remove_features_not_referenced_by_topologies example_period_input1 ≠
      remove_features_not_referenced_by_topologies example_period_input2 := by
  decide

/-- C10 amended: for inputs identical except for the declared time
periods of topological properties' time windows, the computed keep set
is identical and the outputs are identical up to those same time-period
differences (the same features, by position, survive). -/
theorem keep_and_selection_independent_of_time_periods
    (fcs1 fcs2 : List (List Feature))
    (h : same_collections fcs1 fcs2 = true) :
    feature_ids_to_keep fcs1 = feature_ids_to_keep fcs2 ∧
    same_collections (remove_features_not_referenced_by_topologies fcs1)
      (remove_features_not_referenced_by_topologies fcs2) = true := by
  have hk := keep_eq_of_same fcs1 fcs2 h
  refine ⟨hk, ?_⟩
  unfold remove_features_not_referenced_by_topologies
  rw [hk]
  exact map_remove_same _ fcs1 fcs2 h

/-- Witness for the amended C10 on the two concrete example inputs. -/
theorem keep_and_selection_independent_of_time_periods_witness :
    feature_ids_to_keep example_period_input1 =
      feature_ids_to_keep example_period_input2 ∧
    same_collections
      (remove_features_not_referenced_by_topologies example_period_input1)
      (remove_features_not_referenced_by_topologies example_period_input2) =
      true :=
  keep_and_selection_independent_of_time_periods
    example_period_input1 example_period_input2 (by decide)

end CleanupTopologies
